import Mathlib

/-!
Shallow embedding of `v2/pkg/requests/generator.go` (package `requests`):
the per-key payload-generator state machine `GeneratorFSM` and its exposed
operations. Go maps become association lists, the per-key stream channel
(`gchan`) becomes an optional stream handle (identified by a fresh id),
and the nondeterministic `select` inside `ReadOne` is driven by an explicit
event (value received / channel closed / 15-second timer fired). Machine
integers only ever count up from zero here, so they are embedded as `Nat`.
Locks are erased in the functional semantics; a separate lock-accounting
model of Go's `sync.RWMutex` (single goroutine, no contention) captures the
lock acquisitions performed by `Reset`.
-/

namespace NucleiGen

/-- Go: `type GeneratorState int` with `Init`, `Running`, `Done` (iota). -/
inductive GeneratorState where
  | Init
  | Running
  | Done
deriving DecidableEq, Repr

/-- A variable-name → value binding produced by the payload stream
(`map[string]interface{}` in Go). The values are never inspected by this
component, so they are represented as strings. -/
abbrev Binding := List (String × String)

/-- Go: `type Generator struct` — per-key state. `gchan` is the stream
channel handle: `none` models a nil channel ("not started" or
"closed/consumed"); a live channel is identified by a fresh id. -/
structure Generator where
  positionPath : Nat
  positionRaw : Nat
  gchan : Option Nat
  currentGeneratorValue : Option Binding
  state : GeneratorState
deriving DecidableEq, Repr

/-- Go: `generators.Type` — the combination mode. -/
inductive GenType where
  | Sniper
  | PitchFork
  | ClusterBomb
deriving DecidableEq, Repr

/-- Go: `type GeneratorFSM struct`. `payloads` is the supplied named payload
spec map (`map[string]interface{}`, values not inspected); `basePayloads`
is the result of `generators.LoadPayloads` (external collaborator).
`Generators` is the key → per-key-state map, as an association list.
`nextStream` is a model artifact: it supplies the fresh handle for the
channel returned by each call of the stored generator function
(`gfsm.generator(gfsm.basePayloads)`), which the Go code holds as a
function field. -/
structure GeneratorFSM where
  payloads : List (String × String)
  basePayloads : List (String × List String)
  Generators : List (String × Generator)
  typ : GenType
  Paths : List String
  Raws : List String
  nextStream : Nat
deriving DecidableEq, Repr

/-- Go map read `m[key]`: first matching entry of the association list. -/
def lookupG : List (String × Generator) → String → Option Generator
  | [], _ => none
  | p :: rest, key => if p.1 = key then some p.2 else lookupG rest key

/-- Go map write through the entry pointer: rewrite the entry for `key`
with `f`, leaving the rest of the map unchanged (identity if absent). -/
def updateG : List (String × Generator) → String → (Generator → Generator) → List (String × Generator)
  | [], _, _ => []
  | p :: rest, key, f => if p.1 = key then (p.1, f p.2) :: rest else p :: updateG rest key f

/-- Go `delete(m, key)`: drop the entry for `key`. -/
def eraseG : List (String × Generator) → String → List (String × Generator)
  | [], _ => []
  | p :: rest, key => if p.1 = key then eraseG rest key else p :: eraseG rest key

/-- Go: `NewGeneratorFSM(typ, payloads, paths, raws)`. `LoadPayloads` is an
external collaborator: its result is passed in as `loaded`, and is only
installed when the payload spec map is non-empty, exactly as in the source. -/
def NewGeneratorFSM (typ : GenType) (payloads : List (String × String))
    (loaded : List (String × List String)) (paths raws : List String) : GeneratorFSM :=
  { payloads := payloads
    basePayloads := if 0 < payloads.length then loaded else []
    Generators := []
    typ := typ
    Paths := paths
    Raws := raws
    nextStream := 0 }

/-- Go `&Generator{state: Init}`: the remaining fields take their zero
values (positions 0, nil channel, nil map). -/
def zeroGenerator : Generator :=
  { positionPath := 0, positionRaw := 0, gchan := none,
    currentGeneratorValue := none, state := GeneratorState.Init }

/-- Go: `GeneratorFSM.Add` — insert `&Generator{state: Init}` when the key
is absent. -/
def Add (fsm : GeneratorFSM) (key : String) : GeneratorFSM :=
  match lookupG fsm.Generators key with
  | some _ => fsm
  | none => { fsm with Generators := ((key, zeroGenerator) :: fsm.Generators) }

/-- Go: `GeneratorFSM.Has`. -/
def Has (fsm : GeneratorFSM) (key : String) : Bool :=
  (lookupG fsm.Generators key).isSome

/-- Go: `GeneratorFSM.Delete`. -/
def Delete (fsm : GeneratorFSM) (key : String) : GeneratorFSM :=
  { fsm with Generators := eraseG fsm.Generators key }

/-- The event that resolves the `select` inside `ReadOne`: a value arrives
on `gchan`, `gchan` is closed, or the 15-second timer fires. -/
inductive ReadEvent where
  | recv (b : Binding)
  | closed
  | timeout
deriving DecidableEq, Repr

/-- Per-key effect of `ReadOne`'s `select`, from generator.go lines 97-120.
When `gchan` is nil, receiving blocks forever, so only the timer can fire:
the state is forced to `Done` (and `gchan` stays nil). -/
def readOneG (ev : ReadEvent) (g : Generator) : Generator :=
  match g.gchan with
  | none => { g with gchan := none, state := GeneratorState.Done }
  | some _ =>
    match ev with
    | ReadEvent.recv b => { g with currentGeneratorValue := some b }
    | ReadEvent.closed =>
        { g with gchan := none, state := GeneratorState.Done, currentGeneratorValue := none }
    | ReadEvent.timeout => { g with gchan := none, state := GeneratorState.Done }

/-- Go: `GeneratorFSM.ReadOne` — no-op on an unknown key, otherwise applies
the `select` outcome `ev` to the key's state. -/
def ReadOne (fsm : GeneratorFSM) (key : String) (ev : ReadEvent) : GeneratorFSM :=
  { fsm with Generators := updateG fsm.Generators key (readOneG ev) }

/-- Go: `GeneratorFSM.InitOrSkip` — when the payload spec map is non-empty
and the key has no live channel, install the fresh stream obtained from the
generator function and move the key to `Running`. -/
def InitOrSkip (fsm : GeneratorFSM) (key : String) : GeneratorFSM :=
  match lookupG fsm.Generators key with
  | none => fsm
  | some g =>
    if 0 < fsm.payloads.length then
      if g.gchan = none then
        { fsm with
          Generators := (updateG fsm.Generators key (fun g0 =>
            { g0 with gchan := some fsm.nextStream, state := GeneratorState.Running }))
          nextStream := fsm.nextStream + 1 }
      else fsm
    else fsm

/-- Go: `GeneratorFSM.Value` — nil for an unknown key, otherwise the most
recently pulled binding. -/
def Value (fsm : GeneratorFSM) (key : String) : Option Binding :=
  match lookupG fsm.Generators key with
  | none => none
  | some g => g.currentGeneratorValue

/-- Go: `GeneratorFSM.hasPayloads` — `len(basePayloads) > 0`. -/
def hasPayloads (fsm : GeneratorFSM) : Bool :=
  decide (0 < fsm.basePayloads.length)

/-- Go: `GeneratorFSM.Next`. -/
def Next (fsm : GeneratorFSM) (key : String) : Bool :=
  match lookupG fsm.Generators key with
  | none => false
  | some g =>
    if hasPayloads fsm ∧ g.state = GeneratorState.Done then false
    else if fsm.Paths.length + fsm.Raws.length ≤ g.positionPath + g.positionRaw then false
    else true

/-- Go: `GeneratorFSM.Position`. -/
def Position (fsm : GeneratorFSM) (key : String) : Nat :=
  match lookupG fsm.Generators key with
  | none => 0
  | some g => g.positionPath + g.positionRaw

/-- Lock-erased body of Go `GeneratorFSM.Reset`: register the key when
absent, then zero both position counters, touching nothing else. The lock
acquisitions the method performs are modeled separately (`ResetL` below);
they block before this body is reached, so the program never produces the
state this definition returns — it is kept only so that the reachability
relation over-approximates the program's behavior. -/
def Reset (fsm : GeneratorFSM) (key : String) : GeneratorFSM :=
  let fsm1 := if (lookupG fsm.Generators key).isSome then fsm else Add fsm key
  { fsm1 with Generators := (updateG fsm1.Generators key (fun g =>
      { g with positionPath := 0, positionRaw := 0 })) }

/-- Go: `GeneratorFSM.Current`. Go's out-of-range slice indexing panics;
that is embedded as `none` via `List.get?`. An unknown key yields `""`. -/
def Current (fsm : GeneratorFSM) (key : String) : Option String :=
  match lookupG fsm.Generators key with
  | none => some ""
  | some g =>
    if g.positionPath < fsm.Paths.length ∧ fsm.Paths.length ≠ 0 then
      fsm.Paths.get? g.positionPath
    else
      fsm.Raws.get? g.positionRaw

/-- Go: `GeneratorFSM.Total`. -/
def Total (fsm : GeneratorFSM) : Nat :=
  fsm.Paths.length + fsm.Raws.length

/-- Per-key effect of Go `GeneratorFSM.Increment` (lines 233-244), with the
static list lengths passed in. -/
def incrementG (paths raws : Nat) (g : Generator) : Generator :=
  if 0 < paths ∧ g.positionPath < paths then
    { g with positionPath := g.positionPath + 1 }
  else if 0 < raws ∧ g.positionRaw < raws then
    if g.gchan = none then
      { g with state := GeneratorState.Done, positionRaw := g.positionRaw + 1 }
    else g
  else g

/-- Go: `GeneratorFSM.Increment` — no-op on an unknown key. -/
def Increment (fsm : GeneratorFSM) (key : String) : GeneratorFSM :=
  { fsm with Generators := (updateG fsm.Generators key (incrementG fsm.Paths.length fsm.Raws.length)) }

/-- Go `sync.RWMutex` as seen by a single goroutine with no other lock
holders: `writer` records whether this goroutine already holds the write
lock, `readers` how many read locks it holds. The mutex is not reentrant. -/
structure RWMutexState where
  writer : Bool
  readers : Nat
deriving DecidableEq, Repr

/-- `RLock`: blocks (forever, as no other goroutine will release the write
lock this goroutine itself holds) iff the write lock is held; `none` models
blocking forever. -/
def rLock (m : RWMutexState) : Option RWMutexState :=
  if m.writer then none else some { m with readers := m.readers + 1 }

/-- `RUnlock`. -/
def rUnlock (m : RWMutexState) : RWMutexState :=
  { m with readers := m.readers - 1 }

/-- `Lock`: blocks iff the write lock or any read lock is already held. -/
def wLock (m : RWMutexState) : Option RWMutexState :=
  if m.writer || decide (0 < m.readers) then none else some { m with writer := true }

/-- `Unlock`. -/
def wUnlock (m : RWMutexState) : RWMutexState :=
  { m with writer := false }

/-- Go `GeneratorFSM.Has` with the `RLock`/`RUnlock` pair it performs on the
coordinator mutex `m`. -/
def HasL (fsm : GeneratorFSM) (m : RWMutexState) (key : String) : Option (Bool × RWMutexState) :=
  match rLock m with
  | none => none
  | some m1 => some ((lookupG fsm.Generators key).isSome, rUnlock m1)

/-- Go `GeneratorFSM.Add` with the `Lock`/`Unlock` pair it performs on the
coordinator mutex `m`. -/
def AddL (fsm : GeneratorFSM) (m : RWMutexState) (key : String) : Option (GeneratorFSM × RWMutexState) :=
  match wLock m with
  | none => none
  | some m1 => some (Add fsm key, wUnlock m1)

/-- Go `GeneratorFSM.Reset` with its lock operations, called on a free
mutex: it takes the write lock, then calls `Has` (which takes the read lock
of the same mutex) and possibly `Add` (which takes the write lock again),
then zeroes the counters and releases the write lock. `none` models
blocking forever. -/
def ResetL (fsm : GeneratorFSM) (key : String) : Option GeneratorFSM :=
  match wLock { writer := false, readers := 0 } with
  | none => none
  | some m1 =>
    match HasL fsm m1 key with
    | none => none
    | some (has, m2) =>
      match (if has then some (fsm, m2) else AddL fsm m2 key) with
      | none => none
      | some (fsm1, m3) =>
        let fsm2 := { fsm1 with Generators := (updateG fsm1.Generators key (fun g =>
          { g with positionPath := 0, positionRaw := 0 })) }
        let _ := wUnlock m3
        some fsm2

/-- One externally triggered state-changing call on the coordinator
(read-only queries change nothing and are omitted). A `ReadOne` step may be
resolved by any event the channel can deliver. -/
inductive Step : GeneratorFSM → GeneratorFSM → Prop where
  | add (fsm : GeneratorFSM) (key : String) : Step fsm (Add fsm key)
  | delete (fsm : GeneratorFSM) (key : String) : Step fsm (Delete fsm key)
  | reset (fsm : GeneratorFSM) (key : String) : Step fsm (Reset fsm key)
  | initOrSkip (fsm : GeneratorFSM) (key : String) : Step fsm (InitOrSkip fsm key)
  | readOne (fsm : GeneratorFSM) (key : String) (ev : ReadEvent) : Step fsm (ReadOne fsm key ev)
  | increment (fsm : GeneratorFSM) (key : String) : Step fsm (Increment fsm key)

/-- Coordinator states reachable from construction through any sequence of
exposed operations. -/
inductive Reachable : GeneratorFSM → Prop where
  | init (typ : GenType) (payloads : List (String × String))
      (loaded : List (String × List String)) (paths raws : List String) :
      Reachable (NewGeneratorFSM typ payloads loaded paths raws)
  | step {fsm fsm' : GeneratorFSM} : Reachable fsm → Step fsm fsm' → Reachable fsm'

theorem lookupG_updateG_self (m : List (String × Generator)) (key : String) (f : Generator → Generator) :
    lookupG (updateG m key f) key = (lookupG m key).map f := by
  induction m with
  | nil => rfl
  | cons p rest ih =>
    by_cases h : p.1 = key
    · simp [lookupG, updateG, h]
    · simp [lookupG, updateG, h, ih]

theorem lookupG_updateG_ne (m : List (String × Generator)) (key k' : String)
    (f : Generator → Generator) (h : k' ≠ key) :
    lookupG (updateG m key f) k' = lookupG m k' := by
  induction m with
  | nil => rfl
  | cons p rest ih =>
    by_cases hp : p.1 = key
    · simp [lookupG, updateG, hp, Ne.symm h]
    · by_cases hp' : p.1 = k'
      · simp [lookupG, updateG, hp, hp', h]
      · simp [lookupG, updateG, hp, hp', ih]

theorem updateG_of_lookup_none (m : List (String × Generator)) (key : String)
    (f : Generator → Generator) (h : lookupG m key = none) : updateG m key f = m := by
  induction m with
  | nil => rfl
  | cons p rest ih =>
    by_cases hp : p.1 = key
    · simp [lookupG, hp] at h
    · simp [lookupG, hp] at h
      simp [updateG, hp, ih h]

theorem forall_updateG {P : Generator → Prop} (m : List (String × Generator)) (key : String)
    (f : Generator → Generator) (hm : ∀ p ∈ m, P p.2) (hf : ∀ g, P g → P (f g)) :
    ∀ p ∈ updateG m key f, P p.2 := by
  induction m with
  | nil => intro p hp; simp [updateG] at hp
  | cons q rest ih =>
    intro p hp
    by_cases hq : q.1 = key
    · simp [updateG, hq] at hp
      rcases hp with hp | hp
      · rw [hp]; exact hf q.2 (hm q (List.mem_cons_self q rest))
      · exact hm p (List.mem_cons_of_mem q hp)
    · simp [updateG, hq] at hp
      rcases hp with hp | hp
      · rw [hp]; exact hm q (List.mem_cons_self q rest)
      · exact ih (fun r hr => hm r (List.mem_cons_of_mem q hr)) p hp

theorem mem_of_eraseG (m : List (String × Generator)) (key : String)
    (p : String × Generator) (hp : p ∈ eraseG m key) : p ∈ m := by
  induction m with
  | nil => simp [eraseG] at hp
  | cons q rest ih =>
    by_cases hq : q.1 = key
    · simp [eraseG, hq] at hp
      exact List.mem_cons_of_mem q (ih hp)
    · simp [eraseG, hq] at hp
      rcases hp with hp | hp
      · rw [hp]; exact List.mem_cons_self q rest
      · exact List.mem_cons_of_mem q (ih hp)

theorem lookupG_mem (m : List (String × Generator)) (key : String) (g : Generator)
    (h : lookupG m key = some g) : (key, g) ∈ m := by
  induction m with
  | nil => simp [lookupG] at h
  | cons p rest ih =>
    by_cases hp : p.1 = key
    · simp [lookupG, hp] at h
      have : p = (key, g) := by
        cases p; cases hp; cases h; rfl
      rw [← this]; exact List.mem_cons_self p rest
    · simp [lookupG, hp] at h
      exact List.mem_cons_of_mem p (ih h)

theorem step_paths_raws {fsm fsm' : GeneratorFSM} (h : Step fsm fsm') :
    fsm'.Paths = fsm.Paths ∧ fsm'.Raws = fsm.Raws := by
  cases h with
  | add key => unfold Add; constructor <;> (split <;> rfl)
  | delete key => exact ⟨rfl, rfl⟩
  | reset key =>
    unfold Reset Add
    constructor <;> (dsimp only []; split <;> (try split) <;> rfl)
  | initOrSkip key => unfold InitOrSkip; constructor <;> (split <;> (try split) <;> (try split) <;> rfl)
  | readOne key ev => exact ⟨rfl, rfl⟩
  | increment key => exact ⟨rfl, rfl⟩

theorem add_of_some (fsm : GeneratorFSM) (key : String) (g : Generator)
    (h : lookupG fsm.Generators key = some g) : Add fsm key = fsm := by
  simp [Add, h]

theorem add_of_none (fsm : GeneratorFSM) (key : String)
    (h : lookupG fsm.Generators key = none) :
    Add fsm key = { fsm with Generators := ((key, zeroGenerator) :: fsm.Generators) } := by
  simp [Add, h]

theorem initOrSkip_of_none (fsm : GeneratorFSM) (key : String)
    (h : lookupG fsm.Generators key = none) : InitOrSkip fsm key = fsm := by
  simp [InitOrSkip, h]

theorem initOrSkip_of_no_payloads (fsm : GeneratorFSM) (key : String)
    (h : fsm.payloads.length = 0) : InitOrSkip fsm key = fsm := by
  unfold InitOrSkip
  cases hl : lookupG fsm.Generators key with
  | none => rfl
  | some g => simp [h]

theorem initOrSkip_of_live (fsm : GeneratorFSM) (key : String) (g : Generator) (n : Nat)
    (hl : lookupG fsm.Generators key = some g) (hc : g.gchan = some n) :
    InitOrSkip fsm key = fsm := by
  simp [InitOrSkip, hl, hc]

theorem initOrSkip_starts (fsm : GeneratorFSM) (key : String) (g : Generator)
    (hl : lookupG fsm.Generators key = some g) (hp : 0 < fsm.payloads.length)
    (hc : g.gchan = none) :
    InitOrSkip fsm key =
      { fsm with
        Generators := (updateG fsm.Generators key (fun g0 =>
          { g0 with gchan := some fsm.nextStream, state := GeneratorState.Running }))
        nextStream := fsm.nextStream + 1 } := by
  simp [InitOrSkip, hl, hp, hc]

theorem reset_of_some (fsm : GeneratorFSM) (key : String) (g : Generator)
    (h : lookupG fsm.Generators key = some g) :
    Reset fsm key = { fsm with Generators := (updateG fsm.Generators key (fun g0 =>
      { g0 with positionPath := 0, positionRaw := 0 })) } := by
  unfold Reset
  simp [h]

theorem reset_of_none (fsm : GeneratorFSM) (key : String)
    (h : lookupG fsm.Generators key = none) :
    Reset fsm key = { Add fsm key with Generators := (updateG (Add fsm key).Generators key (fun g0 =>
      { g0 with positionPath := 0, positionRaw := 0 })) } := by
  unfold Reset
  simp [h]

/-- A key is only `Running` while it owns a live stream handle. -/
def StateOK (g : Generator) : Prop :=
  ¬(g.gchan = none ∧ g.state = GeneratorState.Running)

/-- Both position counters stay within the static list lengths. -/
def PosOK (paths raws : Nat) (g : Generator) : Prop :=
  g.positionPath ≤ paths ∧ g.positionRaw ≤ raws

theorem zeroGenerator_stateOK : StateOK zeroGenerator := by
  simp [StateOK, zeroGenerator]

theorem zeroGenerator_posOK (paths raws : Nat) : PosOK paths raws zeroGenerator := by
  simp [PosOK, zeroGenerator]

theorem readOneG_stateOK (ev : ReadEvent) (g : Generator) (_h : StateOK g) :
    StateOK (readOneG ev g) := by
  unfold readOneG
  cases hg : g.gchan with
  | none => simp [StateOK]
  | some n => cases ev <;> simp [StateOK, hg]

theorem readOneG_posOK (paths raws : Nat) (ev : ReadEvent) (g : Generator)
    (h : PosOK paths raws g) : PosOK paths raws (readOneG ev g) := by
  unfold readOneG
  unfold PosOK at h ⊢
  cases hg : g.gchan with
  | none => exact h
  | some n => cases ev <;> exact h

theorem incrementG_stateOK (paths raws : Nat) (g : Generator) (h : StateOK g) :
    StateOK (incrementG paths raws g) := by
  unfold incrementG
  by_cases h1 : 0 < paths ∧ g.positionPath < paths
  · rw [if_pos h1]
    unfold StateOK at h ⊢
    exact h
  · rw [if_neg h1]
    by_cases h2 : 0 < raws ∧ g.positionRaw < raws
    · rw [if_pos h2]
      by_cases h3 : g.gchan = none
      · rw [if_pos h3]
        simp [StateOK]
      · rw [if_neg h3]
        exact h
    · rw [if_neg h2]
      exact h

theorem incrementG_posOK (paths raws : Nat) (g : Generator) (h : PosOK paths raws g) :
    PosOK paths raws (incrementG paths raws g) := by
  unfold incrementG
  unfold PosOK at h ⊢
  by_cases h1 : 0 < paths ∧ g.positionPath < paths
  · rw [if_pos h1]
    constructor
    · exact h1.2
    · exact h.2
  · rw [if_neg h1]
    by_cases h2 : 0 < raws ∧ g.positionRaw < raws
    · rw [if_pos h2]
      by_cases h3 : g.gchan = none
      · rw [if_pos h3]
        constructor
        · exact h.1
        · exact h2.2
      · rw [if_neg h3]
        exact h
    · rw [if_neg h2]
      exact h

theorem resetG_stateOK (g : Generator) (h : StateOK g) :
    StateOK { g with positionPath := 0, positionRaw := 0 } := h

theorem resetG_posOK (paths raws : Nat) (g : Generator) :
    PosOK paths raws { g with positionPath := 0, positionRaw := 0 } := by
  simp [PosOK]

theorem initG_stateOK (n : Nat) (g : Generator) :
    StateOK { g with gchan := some n, state := GeneratorState.Running } := by
  simp [StateOK]

theorem initG_posOK (paths raws : Nat) (n : Nat) (g : Generator) (h : PosOK paths raws g) :
    PosOK paths raws { g with gchan := some n, state := GeneratorState.Running } := h

/-- Claim C9 invariant, over every reachable coordinator state: no
registered key ever has no stream handle while its phase is `Running`. -/
theorem reachable_stateOK {fsm : GeneratorFSM} (h : Reachable fsm) :
    ∀ p ∈ fsm.Generators, StateOK p.2 := by
  induction h with
  | init typ payloads loaded paths raws =>
    intro p hp
    simp [NewGeneratorFSM] at hp
  | step hr hs ih =>
    cases hs with
    | add key =>
      rename_i fsm
      cases hl : lookupG fsm.Generators key with
      | some g =>
        rw [add_of_some fsm key g hl]
        exact ih
      | none =>
        rw [add_of_none fsm key hl]
        intro p hp
        rcases List.mem_cons.mp hp with h1 | h2
        · rw [h1]; exact zeroGenerator_stateOK
        · exact ih p h2
    | delete key =>
      rename_i fsm
      intro p hp
      exact ih p (mem_of_eraseG fsm.Generators key p hp)
    | reset key =>
      rename_i fsm
      cases hl : lookupG fsm.Generators key with
      | some g =>
        rw [reset_of_some fsm key g hl]
        exact forall_updateG fsm.Generators key _ ih (fun g0 hg0 => resetG_stateOK g0 hg0)
      | none =>
        rw [reset_of_none fsm key hl, add_of_none fsm key hl]
        refine forall_updateG _ key _ ?_ (fun g0 hg0 => resetG_stateOK g0 hg0)
        intro p hp
        rcases List.mem_cons.mp hp with h1 | h2
        · rw [h1]; exact zeroGenerator_stateOK
        · exact ih p h2
    | initOrSkip key =>
      rename_i fsm
      cases hl : lookupG fsm.Generators key with
      | none =>
        rw [initOrSkip_of_none fsm key hl]
        exact ih
      | some g =>
        by_cases hp : 0 < fsm.payloads.length
        · cases hc : g.gchan with
          | some n =>
            rw [initOrSkip_of_live fsm key g n hl hc]
            exact ih
          | none =>
            rw [initOrSkip_starts fsm key g hl hp hc]
            exact forall_updateG fsm.Generators key _ ih (fun g0 _ => initG_stateOK fsm.nextStream g0)
        · rw [initOrSkip_of_no_payloads fsm key (by omega)]
          exact ih
    | readOne key ev =>
      rename_i fsm
      exact forall_updateG fsm.Generators key _ ih (fun g0 hg0 => readOneG_stateOK ev g0 hg0)
    | increment key =>
      rename_i fsm
      exact forall_updateG fsm.Generators key _ ih
        (fun g0 hg0 => incrementG_stateOK fsm.Paths.length fsm.Raws.length g0 hg0)

/-- Claim C10 invariant, over every reachable coordinator state: both
per-key position counters stay within the static list lengths. -/
theorem reachable_posOK {fsm : GeneratorFSM} (h : Reachable fsm) :
    ∀ p ∈ fsm.Generators, PosOK fsm.Paths.length fsm.Raws.length p.2 := by
  induction h with
  | init typ payloads loaded paths raws =>
    intro p hp
    simp [NewGeneratorFSM] at hp
  | step hr hs ih =>
    cases hs with
    | add key =>
      rename_i fsm
      cases hl : lookupG fsm.Generators key with
      | some g =>
        rw [add_of_some fsm key g hl]
        exact ih
      | none =>
        rw [add_of_none fsm key hl]
        intro p hp
        rcases List.mem_cons.mp hp with h1 | h2
        · rw [h1]; exact zeroGenerator_posOK _ _
        · exact ih p h2
    | delete key =>
      rename_i fsm
      intro p hp
      exact ih p (mem_of_eraseG fsm.Generators key p hp)
    | reset key =>
      rename_i fsm
      cases hl : lookupG fsm.Generators key with
      | some g =>
        rw [reset_of_some fsm key g hl]
        exact forall_updateG fsm.Generators key _ ih (fun g0 _ => resetG_posOK _ _ g0)
      | none =>
        rw [reset_of_none fsm key hl, add_of_none fsm key hl]
        refine forall_updateG _ key _ ?_ (fun g0 _ => resetG_posOK _ _ g0)
        intro p hp
        rcases List.mem_cons.mp hp with h1 | h2
        · rw [h1]; exact zeroGenerator_posOK _ _
        · exact ih p h2
    | initOrSkip key =>
      rename_i fsm
      cases hl : lookupG fsm.Generators key with
      | none =>
        rw [initOrSkip_of_none fsm key hl]
        exact ih
      | some g =>
        by_cases hp : 0 < fsm.payloads.length
        · cases hc : g.gchan with
          | some n =>
            rw [initOrSkip_of_live fsm key g n hl hc]
            exact ih
          | none =>
            rw [initOrSkip_starts fsm key g hl hp hc]
            exact forall_updateG fsm.Generators key _ ih
              (fun g0 hg0 => initG_posOK _ _ fsm.nextStream g0 hg0)
        · rw [initOrSkip_of_no_payloads fsm key (by omega)]
          exact ih
    | readOne key ev =>
      rename_i fsm
      exact forall_updateG fsm.Generators key _ ih (fun g0 hg0 => readOneG_posOK _ _ ev g0 hg0)
    | increment key =>
      rename_i fsm
      exact forall_updateG fsm.Generators key _ ih
        (fun g0 hg0 => incrementG_posOK fsm.Paths.length fsm.Raws.length g0 hg0)

theorem updateG_id_of_fix (m : List (String × Generator)) (key : String)
    (f : Generator → Generator) (h : ∀ g, lookupG m key = some g → f g = g) :
    updateG m key f = m := by
  induction m with
  | nil => rfl
  | cons p rest ih =>
    by_cases hp : p.1 = key
    · have hf := h p.2 (by simp [lookupG, hp])
      unfold updateG
      rw [if_pos hp, hf]
    · simp only [updateG, hp, if_false, List.cons.injEq, true_and]
      exact ih (fun g hg => h g (by simp [lookupG, hp, hg]))

/-- Coordinator used by witnesses: no payloads, paths `["a", "b"]`, no raws. -/
def fsm0 : GeneratorFSM := NewGeneratorFSM GenType.Sniper [] [] ["a", "b"] []

/-- `fsm0` with key `"k"` registered. -/
def sampleStatic : GeneratorFSM := Add fsm0 "k"

/-- `sampleStatic` after one `Increment` of `"k"`. -/
def sampleAdv : GeneratorFSM := Increment sampleStatic "k"

/-- Coordinator used by witnesses: one payload spec, one raw, key `"k"`
registered. -/
def sampleP : GeneratorFSM :=
  Add (NewGeneratorFSM GenType.Sniper [("var", "s")] [("var", ["x", "y"])] [] ["r"]) "k"

/-- `sampleP` after `InitOrSkip "k"`: the key owns live stream handle 0. -/
def sampleLive : GeneratorFSM := InitOrSkip sampleP "k"

/-- Claim C1, settled against the code as written: `GeneratorFSM.Reset`
never returns. It acquires the coordinator's write lock and then calls
`Has`, which tries to acquire the read lock of the same non-reentrant
`sync.RWMutex` and therefore blocks forever (`none`), for every coordinator
state and every key — registered or not. -/
theorem c1_reset_never_returns (fsm : GeneratorFSM) (key : String) :
    ResetL fsm key = none := rfl

/-- Claim C2: for a registered key with a live stream, `ReadOne` has exactly
three outcomes — a received binding is stored as the latest binding with
phase (and handle) unchanged; stream exhaustion clears the handle and the
latest binding and sets phase `Done`; a timeout clears the handle, keeps the
latest binding, and sets phase `Done`. For an unregistered key `ReadOne` is
a no-op. -/
theorem c2_readOne_outcomes (fsm : GeneratorFSM) (key : String) :
    (lookupG fsm.Generators key = none → ∀ ev, ReadOne fsm key ev = fsm) ∧
    (∀ g n, lookupG fsm.Generators key = some g → g.gchan = some n →
      (∀ b, lookupG (ReadOne fsm key (ReadEvent.recv b)).Generators key =
          some { g with currentGeneratorValue := some b }) ∧
      lookupG (ReadOne fsm key ReadEvent.closed).Generators key =
          some { g with gchan := none, state := GeneratorState.Done,
                        currentGeneratorValue := none } ∧
      lookupG (ReadOne fsm key ReadEvent.timeout).Generators key =
          some { g with gchan := none, state := GeneratorState.Done }) := by
  constructor
  · intro h ev
    simp [ReadOne, updateG_of_lookup_none fsm.Generators key _ h]
  · intro g n hl hc
    refine ⟨fun b => ?_, ?_, ?_⟩ <;>
      simp [ReadOne, lookupG_updateG_self, hl, readOneG, hc]

/-- Witness for C2, at a coordinator whose key `"k"` owns a live stream:
the timeout outcome. -/
theorem c2_witness :
    lookupG (ReadOne sampleLive "k" ReadEvent.timeout).Generators "k" =
      some { positionPath := 0, positionRaw := 0, gchan := none,
             currentGeneratorValue := none, state := GeneratorState.Done } :=
  ((c2_readOne_outcomes sampleLive "k").2
    { positionPath := 0, positionRaw := 0, gchan := some 0,
      currentGeneratorValue := none, state := GeneratorState.Running }
    0 rfl rfl).2.2

/-- Claim C3: `Increment` advances `positionPath` while it is within the
path list; otherwise, when the raw list is non-empty and `positionRaw` is in
range, it advances `positionRaw` only when the key has no live stream
handle, setting phase `Done` as a side effect of that raw advance; it is a
no-op on an unknown key, when a live stream blocks the raw advance, or when
both positions are exhausted. -/
theorem c3_increment_cases (fsm : GeneratorFSM) (key : String) :
    (lookupG fsm.Generators key = none → Increment fsm key = fsm) ∧
    (∀ g, lookupG fsm.Generators key = some g →
      (g.positionPath < fsm.Paths.length →
        lookupG (Increment fsm key).Generators key =
          some { g with positionPath := g.positionPath + 1 }) ∧
      (fsm.Paths.length ≤ g.positionPath → 0 < fsm.Raws.length →
          g.positionRaw < fsm.Raws.length →
        (g.gchan = none →
          lookupG (Increment fsm key).Generators key =
            some { g with state := GeneratorState.Done, positionRaw := g.positionRaw + 1 }) ∧
        (g.gchan ≠ none → Increment fsm key = fsm)) ∧
      (fsm.Paths.length ≤ g.positionPath →
          (fsm.Raws.length = 0 ∨ fsm.Raws.length ≤ g.positionRaw) →
        Increment fsm key = fsm)) := by
  constructor
  · intro h
    simp [Increment, updateG_of_lookup_none fsm.Generators key _ h]
  · intro g hl
    refine ⟨?_, ?_, ?_⟩
    · intro hp
      have hcond : 0 < fsm.Paths.length ∧ g.positionPath < fsm.Paths.length := ⟨by omega, hp⟩
      simp [Increment, lookupG_updateG_self, hl, incrementG, hcond]
    · intro hp hr hrp
      constructor
      · intro hc
        have h1 : ¬(0 < fsm.Paths.length ∧ g.positionPath < fsm.Paths.length) := by omega
        have h2 : 0 < fsm.Raws.length ∧ g.positionRaw < fsm.Raws.length := ⟨hr, hrp⟩
        simp [Increment, lookupG_updateG_self, hl, incrementG, h1, h2, hc]
      · intro hc
        have heq : incrementG fsm.Paths.length fsm.Raws.length g = g := by
          unfold incrementG
          rw [if_neg (by omega), if_pos ⟨hr, hrp⟩, if_neg hc]
        have hupd : updateG fsm.Generators key
            (incrementG fsm.Paths.length fsm.Raws.length) = fsm.Generators :=
          updateG_id_of_fix fsm.Generators key _
            (fun g' hg' => by rw [hl] at hg'; cases hg'; exact heq)
        unfold Increment
        rw [hupd]
    · intro hp hr
      have heq : incrementG fsm.Paths.length fsm.Raws.length g = g := by
        unfold incrementG
        rw [if_neg (by omega), if_neg (by omega)]
      have hupd : updateG fsm.Generators key
          (incrementG fsm.Paths.length fsm.Raws.length) = fsm.Generators :=
        updateG_id_of_fix fsm.Generators key _
          (fun g' hg' => by rw [hl] at hg'; cases hg'; exact heq)
      unfold Increment
      rw [hupd]

/-- Witness for C3: in `sampleStatic` (paths `["a", "b"]`), incrementing
`"k"` advances `positionPath` from 0 to 1. -/
theorem c3_witness :
    lookupG (Increment sampleStatic "k").Generators "k" =
      some { zeroGenerator with positionPath := 1 } :=
  ((c3_increment_cases sampleStatic "k").2 zeroGenerator rfl).1 (by decide)

/-- Claim C4: `Next` is false on an unregistered key; on a registered key it
is false when payloads are configured and the phase is `Done`, false when
the combined position has reached `Total` (the sum of the two static list
lengths), and true otherwise. -/
theorem c4_next (fsm : GeneratorFSM) (key : String) :
    Total fsm = fsm.Paths.length + fsm.Raws.length ∧
    (lookupG fsm.Generators key = none → Next fsm key = false) ∧
    (∀ g, lookupG fsm.Generators key = some g →
      (hasPayloads fsm = true → g.state = GeneratorState.Done → Next fsm key = false) ∧
      (Total fsm ≤ g.positionPath + g.positionRaw → Next fsm key = false) ∧
      (¬(hasPayloads fsm = true ∧ g.state = GeneratorState.Done) →
        g.positionPath + g.positionRaw < Total fsm → Next fsm key = true)) := by
  refine ⟨rfl, ?_, ?_⟩
  · intro h
    simp [Next, h]
  · intro g hl
    refine ⟨?_, ?_, ?_⟩
    · intro hpay hdone
      simp [Next, hl, hpay, hdone]
    · intro hpos
      have hle : fsm.Paths.length + fsm.Raws.length ≤ g.positionPath + g.positionRaw := by
        unfold Total at hpos; omega
      by_cases hd : hasPayloads fsm = true ∧ g.state = GeneratorState.Done
      · simp [Next, hl, hd]
      · simp [Next, hl, hd, hle]
    · intro hnd hpos
      have hlt : ¬(fsm.Paths.length + fsm.Raws.length ≤ g.positionPath + g.positionRaw) := by
        unfold Total at hpos; omega
      simp [Next, hl, hnd, hlt]

/-- Witness for C4: in `sampleStatic`, key `"k"` still has work. -/
theorem c4_witness : Next sampleStatic "k" = true :=
  (((c4_next sampleStatic "k").2.2 zeroGenerator rfl).2.2 (by decide) (by decide))

/-- Claim C5, settled against the code as written: the zeroing the claim
describes never happens. At a coordinator whose registered key `"k"` has an
advanced `positionPath` of 1, `Reset` with its lock acquisitions blocks
forever (`none`) — the same self-deadlock as C1, reached before the
counters are touched — so no post-state with zeroed counters is ever
produced. -/
theorem c5_reset_blocks_before_zeroing :
    ResetL sampleAdv "k" = none ∧
    lookupG sampleAdv.Generators "k" =
      some { positionPath := 1, positionRaw := 0, gchan := none,
             currentGeneratorValue := none, state := GeneratorState.Init } :=
  ⟨rfl, rfl⟩

/-- Claim C6: `Current` yields the path literal at `positionPath` when that
index is in range and the path list is non-empty; otherwise it falls
through to raw indexing with no bounds guard on `positionRaw` (an
out-of-range raw index is the Go panic, embedded as `none`); an
unregistered key yields the empty string. -/
theorem c6_current (fsm : GeneratorFSM) (key : String) :
    (lookupG fsm.Generators key = none → Current fsm key = some "") ∧
    (∀ g, lookupG fsm.Generators key = some g →
      (g.positionPath < fsm.Paths.length → 0 < fsm.Paths.length →
        Current fsm key = fsm.Paths.get? g.positionPath ∧
        (fsm.Paths.get? g.positionPath).isSome) ∧
      (¬(g.positionPath < fsm.Paths.length ∧ fsm.Paths.length ≠ 0) →
        Current fsm key = fsm.Raws.get? g.positionRaw)) := by
  constructor
  · intro h
    simp [Current, h]
  · intro g hl
    constructor
    · intro hp hp0
      have hc : g.positionPath < fsm.Paths.length ∧ fsm.Paths.length ≠ 0 := ⟨hp, by omega⟩
      refine ⟨by simp [Current, hl, hc], ?_⟩
      rw [List.get?_eq_get hp]
      rfl
    · intro hc
      simp only [Current, hl]
      rw [if_neg hc]

/-- Witness for C6: in `sampleStatic` the current literal for `"k"` is the
path-list entry at index 0. -/
theorem c6_witness :
    Current sampleStatic "k" = sampleStatic.Paths.get? 0 ∧
    (sampleStatic.Paths.get? 0).isSome :=
  ((c6_current sampleStatic "k").2 zeroGenerator rfl).1 (by decide) (by decide)

/-- Claim C7: `InitOrSkip` is a no-op when no payloads are configured or
the key is unregistered; when the registered key has no live stream handle
it installs the fresh stream from the configured strategy and moves the
phase to `Running`; and it is idempotent — a second consecutive call never
starts a second stream. -/
theorem c7_initOrSkip (fsm : GeneratorFSM) (key : String) :
    (fsm.payloads.length = 0 → InitOrSkip fsm key = fsm) ∧
    (lookupG fsm.Generators key = none → InitOrSkip fsm key = fsm) ∧
    (∀ g, lookupG fsm.Generators key = some g → 0 < fsm.payloads.length → g.gchan = none →
      lookupG (InitOrSkip fsm key).Generators key =
        some { g with gchan := some fsm.nextStream, state := GeneratorState.Running }) ∧
    InitOrSkip (InitOrSkip fsm key) key = InitOrSkip fsm key := by
  refine ⟨fun h => initOrSkip_of_no_payloads fsm key h,
          fun h => initOrSkip_of_none fsm key h, ?_, ?_⟩
  · intro g hl hp hc
    rw [initOrSkip_starts fsm key g hl hp hc]
    show lookupG (updateG fsm.Generators key _) key = _
    rw [lookupG_updateG_self, hl]
    rfl
  · cases hl : lookupG fsm.Generators key with
    | none => rw [initOrSkip_of_none fsm key hl, initOrSkip_of_none fsm key hl]
    | some g =>
      by_cases hp : 0 < fsm.payloads.length
      · cases hc : g.gchan with
        | some n =>
          rw [initOrSkip_of_live fsm key g n hl hc, initOrSkip_of_live fsm key g n hl hc]
        | none =>
          rw [initOrSkip_starts fsm key g hl hp hc]
          refine initOrSkip_of_live _ key
            { g with gchan := some fsm.nextStream, state := GeneratorState.Running }
            fsm.nextStream ?_ rfl
          show lookupG (updateG fsm.Generators key _) key = _
          rw [lookupG_updateG_self, hl]
          rfl
      · have hp0 : fsm.payloads.length = 0 := by omega
        rw [initOrSkip_of_no_payloads fsm key hp0, initOrSkip_of_no_payloads fsm key hp0]

/-- Witness for C7: in `sampleP` (payloads configured, `"k"` registered,
no stream yet), `InitOrSkip` installs stream handle 0 and phase `Running`. -/
theorem c7_witness :
    lookupG (InitOrSkip sampleP "k").Generators "k" =
      some { zeroGenerator with gchan := some 0, state := GeneratorState.Running } :=
  (c7_initOrSkip sampleP "k").2.2.1 zeroGenerator rfl (by decide) rfl

/-- Claim C8: `Add` inserts a fresh zero-valued key state with phase `Init`
when the key is absent, leaves other keys unchanged, and is idempotent —
re-adding an existing key changes nothing at all. -/
theorem c8_add (fsm : GeneratorFSM) (key : String) :
    (lookupG fsm.Generators key = none →
      lookupG (Add fsm key).Generators key = some zeroGenerator ∧
      zeroGenerator.state = GeneratorState.Init ∧
      (∀ k', k' ≠ key → lookupG (Add fsm key).Generators k' = lookupG fsm.Generators k')) ∧
    (∀ g, lookupG fsm.Generators key = some g → Add fsm key = fsm) ∧
    Add (Add fsm key) key = Add fsm key := by
  refine ⟨?_, fun g h => add_of_some fsm key g h, ?_⟩
  · intro h
    rw [add_of_none fsm key h]
    refine ⟨by simp [lookupG], rfl, ?_⟩
    intro k' hk'
    simp [lookupG, Ne.symm hk']
  · cases hl : lookupG fsm.Generators key with
    | some g => rw [add_of_some fsm key g hl, add_of_some fsm key g hl]
    | none =>
      rw [add_of_none fsm key hl]
      exact add_of_some _ key zeroGenerator (by simp [lookupG])

/-- Witness for C8: adding `"k"` to the fresh coordinator `fsm0` registers
the zero-valued generator. -/
theorem c8_witness :
    lookupG (Add fsm0 "k").Generators "k" = some zeroGenerator :=
  ((c8_add fsm0 "k").1 rfl).1

/-- Claim C9: in every coordinator state reachable from construction
through the exposed operations, no registered key has an absent stream
handle while its phase is `Running`. -/
theorem c9_running_owns_stream {fsm : GeneratorFSM} (h : Reachable fsm) :
    ∀ key g, lookupG fsm.Generators key = some g →
      ¬(g.gchan = none ∧ g.state = GeneratorState.Running) :=
  fun key g hg => reachable_stateOK h (key, g) (lookupG_mem fsm.Generators key g hg)

/-- Witness for C9: the freshly added key of a concrete reachable state. -/
theorem c9_witness :
    ¬(zeroGenerator.gchan = none ∧ zeroGenerator.state = GeneratorState.Running) :=
  c9_running_owns_stream
    (Reachable.step (Reachable.init GenType.Sniper [] [] ["a", "b"] []) (Step.add fsm0 "k"))
    "k" zeroGenerator rfl

/-- Claim C10: in every reachable coordinator state, each registered key's
`positionPath` is at most the path-list length and `positionRaw` at most the
raw-list length, and `Position` never exceeds `Total` for any key. -/
theorem c10_positions_bounded {fsm : GeneratorFSM} (h : Reachable fsm) :
    (∀ key g, lookupG fsm.Generators key = some g →
      g.positionPath ≤ fsm.Paths.length ∧ g.positionRaw ≤ fsm.Raws.length) ∧
    (∀ key, Position fsm key ≤ Total fsm) := by
  constructor
  · exact fun key g hg => reachable_posOK h (key, g) (lookupG_mem fsm.Generators key g hg)
  · intro key
    cases hl : lookupG fsm.Generators key with
    | none =>
      have hpos : Position fsm key = 0 := by simp [Position, hl]
      rw [hpos]
      exact Nat.zero_le _
    | some g =>
      have hb : g.positionPath ≤ fsm.Paths.length ∧ g.positionRaw ≤ fsm.Raws.length :=
        reachable_posOK h (key, g) (lookupG_mem fsm.Generators key g hl)
      have hpos : Position fsm key = g.positionPath + g.positionRaw := by simp [Position, hl]
      rw [hpos]
      unfold Total
      omega

/-- Witness for C10: a concrete reachable state with one advanced key. -/
theorem c10_witness : Position sampleAdv "k" ≤ Total sampleAdv :=
  (c10_positions_bounded
    (Reachable.step
      (Reachable.step (Reachable.init GenType.Sniper [] [] ["a", "b"] []) (Step.add fsm0 "k"))
      (Step.increment sampleStatic "k"))).2 "k"

end NucleiGen
